import Mathlib

/-!
Verification of the analytics upload server (`server.js`) and the dataset
editor component (`DatasetEditor.tsx`).

Text manipulated by the JavaScript code is modelled as `List Char`, so that
every operation is a structural recursion the kernel can evaluate.  The
JavaScript primitives used by the server (`String.prototype.split`,
`Array.prototype.join`, `trim` truthiness, `includes`, `findIndex`,
out-of-range element assignment) are embedded one-for-one below.
-/

namespace Analytics

/-- Character-list model of a JavaScript string. -/
abbrev Str := List Char

/-- `s.split(sep)` for a one-character separator (no regex), as in
`csvContent.split('\n')` and `line.split(';')` in `server.js`. -/
def jsSplit (sep : Char) (s : Str) : List Str :=
  s.splitOn sep

/-- `arr.join(sep)` for a one-character separator. -/
def jsJoin (sep : Char) (ls : List Str) : Str :=
  List.intercalate [sep] ls

/-- Truthiness of `s.trim()`: the string contains a non-whitespace
character.  (`line.trim()` is used as a boolean guard throughout
`server.js` and `DatasetEditor.tsx`.) -/
def jsTrimTruthy (s : Str) : Bool :=
  s.any (fun c => ¬ c.isWhitespace)

/-- `hay.includes(needle)`: substring test. -/
def containsSub (hay needle : Str) : Bool :=
  decide (needle <:+: hay)

/-- `arr.findIndex(p)`, returning `none` for `-1`. -/
def jsFindIndex (p : α → Bool) : List α → Option Nat
  | [] => none
  | a :: l => if p a then some 0 else (jsFindIndex p l).map (· + 1)

/-- `values[i] || ''`: out-of-range access yields `undefined`, and both
`undefined` and the empty string are replaced by `''`. -/
def jsIndexOr (l : List Str) (i : Nat) : Str :=
  l.getD i []

/-- JavaScript array element assignment `arr[i] = v`: in-range indices are
overwritten; an out-of-range index extends the array, and `join` later
renders the holes as empty strings. -/
def jsArraySet (l : List Str) (i : Nat) (v : Str) : List Str :=
  if i < l.length then l.set i v
  else l ++ List.replicate (i - l.length) [] ++ [v]

/-! ### GET /api/status  (server.js lines 371-385)

The endpoint answers `completed` exactly when the file
`videa_s_extrahovanymi_info.csv` exists directly in the server's own
directory (`path.join(__dirname, './')`); the extraction pipeline's
completion path instead copies `extracted.csv` to
`public/videa_s_extrahovanymi_info.csv`.  Paths are modelled as component
lists and the file system as an abstract existence predicate. -/

/-- The path checked by `GET /api/status`. -/
def statusCsvPath (dir : List String) : List String :=
  dir ++ ["videa_s_extrahovanymi_info.csv"]

/-- The destination of the completion-path copy
(`path.join(__dirname, 'public', 'videa_s_extrahovanymi_info.csv')`,
server.js line 334). -/
def completionCopyDest (dir : List String) : List String :=
  dir ++ ["public", "videa_s_extrahovanymi_info.csv"]

/-- The `GET /api/status` handler: response `(status, message)`. -/
def apiStatus (fsExists : List String → Bool) (dir : List String) :
    String × String :=
  if fsExists (statusCsvPath dir) then
    ("completed", "Processing completed successfully")
  else
    ("processing", "Still processing videos...")

/-! ### GET /api/progress  (server.js lines 388-410) -/

/-- One progress record as written to / read from `progress.json`.
`percentage` is optional because not every writer includes the field. -/
structure ProgressRec where
  current : Int
  total : Int
  status : Str
  message : Str
  percentage : Option Int
deriving DecidableEq

/-- The fixed default returned when `progress.json` is missing or does not
parse (server.js lines 399-405). -/
def defaultProgress : ProgressRec :=
  { current := 0
    total := 0
    status := "idle".data
    message := "Čekání na spuštění".data
    percentage := some 0 }

/-- The `GET /api/progress` handler.  `parse` stands for `JSON.parse`
(`none` = exception thrown), `file` for the attempted read of
`progress.json` (`none` = file missing).  The result is the HTTP status
together with either the parsed value, returned verbatim, or the default
record. -/
def apiProgress {J : Type} (parse : Str → Option J) (file : Option Str) :
    Nat × (J ⊕ ProgressRec) :=
  match file with
  | none => (200, Sum.inr defaultProgress)
  | some s =>
    match parse s with
    | some j => (200, Sum.inl j)
    | none => (200, Sum.inr defaultProgress)

/-! ### runPythonScript  (server.js lines 62-137)

`runPythonScript` spawns a child process and settles its promise from the
first of the `close` handler, the `error` handler and the timeout callback;
the shared `isResolved` flag makes every later event a no-op.  The model
replays the event sequence delivered to the handlers, in order; "the child
closed within the wall-clock timeout" is "a `close` event precedes the
`timeoutFire` event". -/

/-- An event delivered to one of `runPythonScript`'s callbacks. -/
inductive ChildEvent
  | stdoutData (s : Str)
  | stderrData (s : Str)
  | close (code : Int)
  | spawnError
  | timeoutFire
deriving DecidableEq

/-- How the timeout callback killed the child:
`process.kill(-pid, 'SIGTERM')` on the process group, or — when that call
throws — the fallback `pythonProcess.kill('SIGKILL')`. -/
inductive KillAttempt
  | sigtermGroup
  | sigtermGroupThenSigkill
deriving DecidableEq

/-- How the promise settled. -/
inductive Settled
  | resolvedOk (stdout stderr : Str) (code : Int)
  | rejectedExit (code : Int) (stderr : Str)
  | rejectedTimeout (timeoutMs : Nat)
  | rejectedSpawnError
deriving DecidableEq

/-- Mutable state of one `runPythonScript` call: the accumulated `stdout`
and `stderr`, the settled outcome (`none` while `isResolved` is false) and
the kill attempt made by the timeout callback, if any. -/
structure RunState where
  stdout : Str
  stderr : Str
  settled : Option Settled
  kill : Option KillAttempt
deriving DecidableEq

/-- Initial state of a `runPythonScript` call. -/
def initRunState : RunState :=
  { stdout := [], stderr := [], settled := none, kill := none }

/-- One event handler step.  `groupKillFails` records whether
`process.kill(-pid, 'SIGTERM')` throws (forcing the `SIGKILL` fallback). -/
def handleEvent (groupKillFails : Bool) (timeoutMs : Nat)
    (st : RunState) : ChildEvent → RunState
  | .stdoutData s => { st with stdout := st.stdout ++ s }
  | .stderrData s => { st with stderr := st.stderr ++ s }
  | .close code =>
    if st.settled.isSome then st
    else
      { st with
        settled := some (if code = 0 then
            .resolvedOk st.stdout st.stderr code
          else
            .rejectedExit code st.stderr) }
  | .spawnError =>
    if st.settled.isSome then st
    else { st with settled := some .rejectedSpawnError }
  | .timeoutFire =>
    if st.settled.isSome then st
    else
      { st with
        settled := some (.rejectedTimeout timeoutMs)
        kill := some (if groupKillFails then .sigtermGroupThenSigkill
          else .sigtermGroup) }

/-- A full `runPythonScript` call: replay the delivered events. -/
def runScript (groupKillFails : Bool) (timeoutMs : Nat)
    (events : List ChildEvent) : RunState :=
  events.foldl (handleEvent groupKillFails timeoutMs) initRunState

/-- The default timeout of `runPythonScript` (`20 * 60 * 1000` ms). -/
def defaultTimeoutMs : Nat := 20 * 60 * 1000

/-- Does an event settle the promise (close / error / timeout)? -/
def isSettling : ChildEvent → Bool
  | .close _ => true
  | .spawnError => true
  | .timeoutFire => true
  | _ => false

/-- The first promise-settling event of the sequence. -/
def firstSettling (events : List ChildEvent) : Option ChildEvent :=
  events.find? isSettling

/-- `stdout` accumulated strictly before the first settling event. -/
def outBefore (events : List ChildEvent) : Str :=
  ((events.takeWhile (fun e => ¬ isSettling e)).filterMap
    (fun e => match e with | .stdoutData s => some s | _ => none)).flatten

/-- `stderr` accumulated strictly before the first settling event. -/
def errBefore (events : List ChildEvent) : Str :=
  ((events.takeWhile (fun e => ¬ isSettling e)).filterMap
    (fun e => match e with | .stderrData s => some s | _ => none)).flatten

/-! ### The extraction orchestration loop
(server.js lines 216-285, upload; lines 775-844, restart)

Both loops are the same code: up to `maxRuns = 10` invocations of
`extract_video_info_fast.py`; after each invocation the loop re-reads
`clean.csv` and `extracted.csv`, counts their non-empty lines, writes
`progress.json`, and then either declares completion
(`processed >= total`), stops (`processed === 0`), or sleeps 3000 ms and
re-invokes.  The file system is modelled by the contents of
`extracted.csv` after each invocation (`none` = the read throws because
the file is missing); the loop itself is deterministic in those reads. -/

/-- `csv.split('\n').filter(line => line.trim()).length`. -/
def countLines (s : Str) : Nat :=
  ((jsSplit '\n' s).filter jsTrimTruthy).length

/-- `processedVideos`: non-empty lines of `extracted.csv` minus one for
the header; a missing file (read throws) counts as 0. -/
def processedCount (file : Option Str) : Int :=
  match file with
  | none => 0
  | some s => (countLines s : Int) - 1

/-- `totalVideos`: non-empty lines of `clean.csv` minus one. -/
def totalCount (clean : Str) : Int :=
  (countLines clean : Int) - 1

/-- Hard cap on invocations (`const maxRuns = 10`). -/
def maxRuns : Nat := 10

/-- Cooldown between invocations (`setTimeout(resolve, 3000)`). -/
def cooldownMs : Nat := 3000

/-- Decimal rendering of an integer, as JS template interpolation does. -/
def intStr (n : Int) : Str := (toString n).data

/-- The `progress.json` record written by the loop after each invocation
(server.js lines 256-261 and 815-820): `current`, `total`,
`status: 'processing'` and a message — no `percentage` field. -/
def loopProgressRec (msgPre : Str) (p t : Int) (k : Nat) : ProgressRec :=
  { current := p
    total := t
    status := "processing".data
    message := msgPre ++ intStr p ++ "/".data ++ intStr t ++
      " videí (run ".data ++ (toString k).data ++ ")".data
    percentage := none }

/-- Message head used by the upload loop
(`Automatické zpracování: ...`). -/
def uploadMsg : Str := "Automatické zpracování: ".data

/-- Message head used by the restart loop (`Restart extrakce: ...`). -/
def restartMsg : Str := "Restart extrakce: ".data

/-- Observable step of the orchestration loop. -/
inductive LoopEv
  | run (k : Nat)
  | progressWrite (rec : ProgressRec)
  | cooldown (ms : Nat)
deriving DecidableEq

/-- The `while (!allVideosProcessed && currentRun < maxRuns)` loop.
`obs k` is `processedVideos` as re-read after the `k`-th invocation;
`fuel = maxRuns - currentRun` counts the remaining loop-guard budget.
Returns the event trace, the final `currentRun` and the final
`allVideosProcessed`. -/
def extractionLoopGo (obs : Nat → Int) (total : Int) (msgPre : Str) :
    Nat → Nat → List LoopEv × Nat × Bool
  | 0, cr => ([], cr, false)
  | fuel + 1, cr =>
    let k := cr + 1
    let p := obs k
    let pw := LoopEv.progressWrite (loopProgressRec msgPre p total k)
    if p ≥ total then ([LoopEv.run k, pw], k, true)
    else if p = 0 then ([LoopEv.run k, pw], k, false)
    else
      let r := extractionLoopGo obs total msgPre fuel k
      (LoopEv.run k :: pw :: LoopEv.cooldown cooldownMs :: r.1, r.2)

/-- The orchestration loop over abstract per-invocation observations. -/
def extractionLoop (obs : Nat → Int) (total : Int) (msgPre : Str) :
    List LoopEv × Nat × Bool :=
  extractionLoopGo obs total msgPre maxRuns 0

/-- The orchestration loop over file contents: `ext k` is `extracted.csv`
after the `k`-th invocation, `clean` is `clean.csv`. -/
def extractionLoopFiles (ext : Nat → Option Str) (clean : Str)
    (msgPre : Str) : List LoopEv × Nat × Bool :=
  extractionLoop (fun k => processedCount (ext k)) (totalCount clean) msgPre

/-- The final `metadata.status` written by the upload endpoint after its
loop ends (`allVideosProcessed ? 'completed' : 'error'`, server.js
line 308). -/
def uploadFinalStatus (ext : Nat → Option Str) (clean : Str) : String :=
  if (extractionLoopFiles ext clean uploadMsg).2.2 then "completed"
  else "error"

/-- Number of subprocess invocations in a trace. -/
def countRuns (evs : List LoopEv) : Nat :=
  evs.countP (fun e => match e with | LoopEv.run _ => true | _ => false)

/-- `separatedFrom pending evs`: scanning `evs`, with `pending = true`
meaning a run has been seen and no 3000 ms cooldown since, every pair of
consecutive runs has a 3000 ms cooldown strictly between them. -/
def separatedFrom : Bool → List LoopEv → Bool
  | _, [] => true
  | false, LoopEv.run _ :: rest => separatedFrom true rest
  | false, _ :: rest => separatedFrom false rest
  | true, LoopEv.run _ :: _ => false
  | true, LoopEv.cooldown ms :: rest =>
    if ms = cooldownMs then separatedFrom false rest
    else separatedFrom true rest
  | true, _ :: rest => separatedFrom true rest

/-- Between any two consecutive invocations there is a 3000 ms cooldown. -/
def cooldownSeparated (evs : List LoopEv) : Bool :=
  separatedFrom false evs

/-- A stuck extraction: `extracted.csv` holds a header plus one data row
after every invocation (the first invocation made progress, every later
one processed zero new items). -/
def extStuck : Nat → Option Str :=
  fun k => if k = 0 then none else some "h\nr1".data

/-- A `clean.csv` with a header and three data rows (`totalVideos = 3`). -/
def cleanThree : Str := "h\na\nb\nc".data

/-! ### POST /api/update-source  (server.js lines 667-739)

The endpoint splits the most recent `extracted.csv` into lines, finds the
title and extracted-source columns by header name, scans the data lines
for the first non-blank line whose title field contains the supplied
`videoTitle`, overwrites that line's source field, and rejoins; if no line
was updated it answers 404 without writing.  `none` models the 404 / no
write outcome, `some out` the rewritten file contents. -/

/-- `h.includes('Název') || h.includes('Title')`. -/
def titleHeaderPred (h : Str) : Bool :=
  containsSub h "Název".data || containsSub h "Title".data

/-- `h.includes('Extrahované') || h.includes('Source')`. -/
def sourceHeaderPred (h : Str) : Bool :=
  containsSub h "Extrahované".data || containsSub h "Source".data

/-- `values[titleIndex] && values[titleIndex].includes(videoTitle)`:
an out-of-range or empty title field is falsy. -/
def rowMatchesTitle (tIdx : Nat) (videoTitle : Str) (values : List Str) : Bool :=
  match values.get? tIdx with
  | none => false
  | some v => !v.isEmpty && containsSub v videoTitle

/-- The scan over the data lines (`for i = 1; ...; break` on the first
update).  Returns the updated data lines, or `none` when no line was
updated. -/
def updateLoop (tIdx sIdx : Nat) (vt ns : Str) : List Str → Option (List Str)
  | [] => none
  | line :: rest =>
    if jsTrimTruthy line && rowMatchesTitle tIdx vt (jsSplit ';' line) then
      some (jsJoin ';' (jsArraySet (jsSplit ';' line) sIdx ns) :: rest)
    else
      (updateLoop tIdx sIdx vt ns rest).map (line :: ·)

/-- The whole `POST /api/update-source` file transformation.  When either
header column is absent (`findIndex` gives `-1`) no line is ever updated
and the endpoint answers 404. -/
def updateSource (csv vt ns : Str) : Option Str :=
  let lines := jsSplit '\n' csv
  let headers := jsSplit ';' (lines.headD [])
  match jsFindIndex titleHeaderPred headers,
      jsFindIndex sourceHeaderPred headers with
  | some tIdx, some sIdx =>
    (updateLoop tIdx sIdx vt ns lines.tail).map
      (fun tl => jsJoin '\n' (lines.headD [] :: tl))
  | _, _ => none

/-! ### DatasetEditor CSV parse / serialize
(DatasetEditor.tsx lines 66-80 and 126-139)

`loadDatasetData` splits on newlines, takes the first line as the header,
and builds one record per non-blank line as a JavaScript object
`row[header] = values[index] || ''`; `saveDataset` rebuilds the CSV from
`Object.keys(videos[0])` and the records' values, returning early (no
write) when there are no records.  JavaScript objects are modelled as
insertion-ordered association lists with unique keys. -/

/-- Insertion-ordered association list standing for a JS object. -/
abbrev Obj := List (Str × Str)

/-- `obj[k] = v`: overwrite in place if the key exists, else append. -/
def objSet (o : Obj) (k v : Str) : Obj :=
  if o.any (fun kv => decide (kv.1 = k)) then
    o.map (fun kv => if kv.1 = k then (k, v) else kv)
  else o ++ [(k, v)]

/-- Numeric value of a digit string. -/
def strToNat (s : Str) : Nat :=
  s.foldl (fun n c => n * 10 + (c.toNat - '0'.toNat)) 0

/-- Is the string a canonical array index in the ECMAScript sense: a pure
digit string with no leading zero (except `"0"` itself) whose value is
below `2^32 - 1`?  Such property keys are enumerated before all other
string keys, in ascending numeric order. -/
def isArrayIndex (s : Str) : Bool :=
  !s.isEmpty && s.all Char.isDigit &&
  (decide (s.headD '0' ≠ '0') || decide (s.length = 1)) &&
  decide (strToNat s < 4294967295)

/-- Insert a key into a list sorted by ascending numeric value. -/
def insertByVal (k : Str) : List Str → List Str
  | [] => [k]
  | a :: l => if strToNat k ≤ strToNat a then k :: a :: l else a :: insertByVal k l

/-- Insertion sort by ascending numeric value. -/
def sortByVal : List Str → List Str
  | [] => []
  | a :: l => insertByVal a (sortByVal l)

/-- `Object.keys(obj)`, following ECMAScript `[[OwnPropertyKeys]]`:
integer-like keys (canonical array indices) first, in ascending numeric
order, then the remaining string keys in insertion order. -/
def objKeys (o : Obj) : List Str :=
  sortByVal ((o.map Prod.fst).filter isArrayIndex) ++
    (o.map Prod.fst).filter (fun k => !isArrayIndex k)

/-- `obj[k] || ''`. -/
def objGet (o : Obj) (k : Str) : Str :=
  match o.find? (fun kv => decide (kv.1 = k)) with
  | some kv => kv.2
  | none => []

/-- `headers.forEach((header, index) => row[header] = values[index] || '')`,
starting at index `i` with the object built so far. -/
def parseRowGo (values : List Str) : Nat → Obj → List Str → Obj
  | _, o, [] => o
  | i, o, h :: hs => parseRowGo values (i + 1) (objSet o h (jsIndexOr values i)) hs

/-- One parsed record. -/
def parseRow (headers values : List Str) : Obj :=
  parseRowGo values 0 [] headers

/-- The record a `forEach` over pairwise-distinct headers builds: key
`hs[j]` bound to `values[i + j] || ''`. -/
def rowOf (values : List Str) : Nat → List Str → Obj
  | _, [] => []
  | i, h :: hs => (h, jsIndexOr values i) :: rowOf values (i + 1) hs

/-- `loadDatasetData`: one record per non-blank data line. -/
def parseCsv (csv : Str) : List Obj :=
  let lines := jsSplit '\n' csv
  let headers := jsSplit ';' (lines.headD [])
  (lines.tail.filter jsTrimTruthy).map
    (fun l => parseRow headers (jsSplit ';' l))

/-- `saveDataset`: rebuild the CSV, or do nothing when there are no
records (`videos.length === 0` early return). -/
def serializeVideos : List Obj → Option Str
  | [] => none
  | v0 :: vs =>
    some (jsJoin '\n' (jsJoin ';' (objKeys v0) ::
      (v0 :: vs).map (fun v => jsJoin ';' ((objKeys v0).map (objGet v)))))

/-- The DatasetEditor's serialization of its own parse. -/
def serializeOfParse (csv : Str) : Option Str :=
  serializeVideos (parseCsv csv)

end Analytics

namespace Analytics

theorem jsFindIndex_lt_length {p : α → Bool} :
    ∀ {l : List α} {i : Nat}, jsFindIndex p l = some i → i < l.length := by
  intro l
  induction l with
  | nil => intro i h; simp [jsFindIndex] at h
  | cons a l ih =>
    intro i h
    simp only [jsFindIndex] at h
    by_cases hp : p a
    · simp only [hp, if_true, Option.some.injEq] at h
      subst h
      simp
    · rw [if_neg hp] at h
      cases hj : jsFindIndex p l with
      | none => rw [hj] at h; simp at h
      | some j =>
        rw [hj] at h
        simp only [Option.map_some', Option.some.injEq] at h
        subst h
        have := ih hj
        simp only [List.length_cons]
        omega

theorem jsArraySet_eq_set {l : List Str} {i : Nat} {v : Str} (h : i < l.length) :
    jsArraySet l i v = l.set i v := by
  simp [jsArraySet, h]

/-- Once the promise is settled, later events change neither the outcome
nor the kill record (the `isResolved` guard). -/
theorem runScript_absorb (g : Bool) (t : Nat) :
    ∀ (evs : List ChildEvent) (st : RunState), st.settled.isSome →
      ((evs.foldl (handleEvent g t) st).settled = st.settled ∧
       (evs.foldl (handleEvent g t) st).kill = st.kill) := by
  intro evs
  induction evs with
  | nil => intro st _; exact ⟨rfl, rfl⟩
  | cons e evs ih =>
    intro st hst
    have hstep : (handleEvent g t st e).settled = st.settled ∧
        (handleEvent g t st e).kill = st.kill := by
      cases e <;> simp [handleEvent, hst]
    have hsome : (handleEvent g t st e).settled.isSome := by
      rw [hstep.1]; exact hst
    have := ih (handleEvent g t st e) hsome
    simp only [List.foldl_cons]
    exact ⟨this.1.trans hstep.1, this.2.trans hstep.2⟩

/-- Behaviour of the fold as determined by the first settling event:
`close c` settles with `resolvedOk`/`rejectedExit` depending on the exit
code and never kills; `spawnError` rejects; `timeoutFire` rejects with the
timeout error and kills the process tree. -/
theorem runScript_firstSettling (g : Bool) (t : Nat) :
    ∀ (evs : List ChildEvent) (st : RunState),
      st.settled = none → st.kill = none →
      ((∀ c, firstSettling evs = some (ChildEvent.close c) →
        (evs.foldl (handleEvent g t) st).settled =
          some (if c = 0 then
              Settled.resolvedOk (st.stdout ++ outBefore evs)
                (st.stderr ++ errBefore evs) c
            else Settled.rejectedExit c (st.stderr ++ errBefore evs)) ∧
        (evs.foldl (handleEvent g t) st).kill = none) ∧
      (firstSettling evs = some ChildEvent.spawnError →
        (evs.foldl (handleEvent g t) st).settled =
          some Settled.rejectedSpawnError ∧
        (evs.foldl (handleEvent g t) st).kill = none) ∧
      (firstSettling evs = some ChildEvent.timeoutFire →
        (evs.foldl (handleEvent g t) st).settled =
          some (Settled.rejectedTimeout t) ∧
        (evs.foldl (handleEvent g t) st).kill =
          some (if g then KillAttempt.sigtermGroupThenSigkill
            else KillAttempt.sigtermGroup))) := by
  intro evs
  induction evs with
  | nil =>
    intro st _ _
    refine ⟨?_, ?_, ?_⟩ <;> intros <;> simp_all [firstSettling]
  | cons e evs ih =>
    intro st hset hkill
    cases e with
    | stdoutData s =>
      have hfs : firstSettling (ChildEvent.stdoutData s :: evs) =
          firstSettling evs := by
        simp [firstSettling, List.find?, isSettling]
      have hout : outBefore (ChildEvent.stdoutData s :: evs) =
          s ++ outBefore evs := by
        simp [outBefore, List.takeWhile, isSettling]
      have herr : errBefore (ChildEvent.stdoutData s :: evs) =
          errBefore evs := by
        simp [errBefore, List.takeWhile, isSettling]
      have hstep : handleEvent g t st (ChildEvent.stdoutData s) =
          { st with stdout := st.stdout ++ s } := rfl
      have := ih { st with stdout := st.stdout ++ s } hset hkill
      refine ⟨?_, ?_, ?_⟩
      · intro c hc
        rw [hfs] at hc
        have h1 := this.1 c hc
        simp only [List.foldl_cons, hstep]
        rw [hout, herr]
        simpa [List.append_assoc] using h1
      · intro hc
        rw [hfs] at hc
        simpa only [List.foldl_cons, hstep] using this.2.1 hc
      · intro hc
        rw [hfs] at hc
        simpa only [List.foldl_cons, hstep] using this.2.2 hc
    | stderrData s =>
      have hfs : firstSettling (ChildEvent.stderrData s :: evs) =
          firstSettling evs := by
        simp [firstSettling, List.find?, isSettling]
      have hout : outBefore (ChildEvent.stderrData s :: evs) =
          outBefore evs := by
        simp [outBefore, List.takeWhile, isSettling]
      have herr : errBefore (ChildEvent.stderrData s :: evs) =
          s ++ errBefore evs := by
        simp [errBefore, List.takeWhile, isSettling]
      have hstep : handleEvent g t st (ChildEvent.stderrData s) =
          { st with stderr := st.stderr ++ s } := rfl
      have := ih { st with stderr := st.stderr ++ s } hset hkill
      refine ⟨?_, ?_, ?_⟩
      · intro c hc
        rw [hfs] at hc
        have h1 := this.1 c hc
        simp only [List.foldl_cons, hstep]
        rw [hout, herr]
        simpa [List.append_assoc] using h1
      · intro hc
        rw [hfs] at hc
        simpa only [List.foldl_cons, hstep] using this.2.1 hc
      · intro hc
        rw [hfs] at hc
        simpa only [List.foldl_cons, hstep] using this.2.2 hc
    | close code =>
      have hfs : firstSettling (ChildEvent.close code :: evs) =
          some (ChildEvent.close code) := by
        simp [firstSettling, List.find?, isSettling]
      have hstep : handleEvent g t st (ChildEvent.close code) =
          { st with settled := some (if code = 0 then
              Settled.resolvedOk st.stdout st.stderr code
            else Settled.rejectedExit code st.stderr) } := by
        simp [handleEvent, hset]
      have habs := runScript_absorb g t evs (handleEvent g t st (ChildEvent.close code))
        (by rw [hstep]; simp)
      have hout : outBefore (ChildEvent.close code :: evs) = [] := by
        simp [outBefore, List.takeWhile, isSettling]
      have herr : errBefore (ChildEvent.close code :: evs) = [] := by
        simp [errBefore, List.takeWhile, isSettling]
      refine ⟨?_, ?_, ?_⟩
      · intro c hc
        rw [hfs] at hc
        injection hc with hc
        injection hc with hc
        subst hc
        constructor
        · simp only [List.foldl_cons]
          rw [habs.1, hstep, hout, herr]
          simp
        · simp only [List.foldl_cons]
          rw [habs.2, hstep]
          exact hkill
      · intro hc; rw [hfs] at hc; exact absurd hc (by simp)
      · intro hc; rw [hfs] at hc; exact absurd hc (by simp)
    | spawnError =>
      have hfs : firstSettling (ChildEvent.spawnError :: evs) =
          some ChildEvent.spawnError := by
        simp [firstSettling, List.find?, isSettling]
      have hstep : handleEvent g t st ChildEvent.spawnError =
          { st with settled := some Settled.rejectedSpawnError } := by
        simp [handleEvent, hset]
      have habs := runScript_absorb g t evs (handleEvent g t st ChildEvent.spawnError)
        (by rw [hstep]; simp)
      refine ⟨?_, ?_, ?_⟩
      · intro c hc; rw [hfs] at hc; exact absurd hc (by simp)
      · intro _
        constructor
        · simp only [List.foldl_cons]
          rw [habs.1, hstep]
        · simp only [List.foldl_cons]
          rw [habs.2, hstep]
          exact hkill
      · intro hc; rw [hfs] at hc; exact absurd hc (by simp)
    | timeoutFire =>
      have hfs : firstSettling (ChildEvent.timeoutFire :: evs) =
          some ChildEvent.timeoutFire := by
        simp [firstSettling, List.find?, isSettling]
      have hstep : handleEvent g t st ChildEvent.timeoutFire =
          { st with
            settled := some (Settled.rejectedTimeout t)
            kill := some (if g then KillAttempt.sigtermGroupThenSigkill
              else KillAttempt.sigtermGroup) } := by
        simp [handleEvent, hset]
      have habs := runScript_absorb g t evs (handleEvent g t st ChildEvent.timeoutFire)
        (by rw [hstep]; simp)
      refine ⟨?_, ?_, ?_⟩
      · intro c hc; rw [hfs] at hc; exact absurd hc (by simp)
      · intro hc; rw [hfs] at hc; exact absurd hc (by simp)
      · intro _
        constructor
        · simp only [List.foldl_cons]
          rw [habs.1, hstep]
        · simp only [List.foldl_cons]
          rw [habs.2, hstep]

/-- C5: if the child has not closed (and spawning has not errored) by the
time the wall-clock timeout fires, the promise rejects with the timeout
error and the parent kills the child's process tree — `SIGTERM` on the
process group, falling back to `SIGKILL` when the group kill throws; a
child that closes before the timeout is never killed by this mechanism.
The default timeout is 20 minutes. -/
theorem run_python_script_timeout_kills
    (g : Bool) (t : Nat) (evs : List ChildEvent) :
    (firstSettling evs = some ChildEvent.timeoutFire →
      (runScript g t evs).settled = some (Settled.rejectedTimeout t) ∧
      (runScript g t evs).kill =
        some (if g then KillAttempt.sigtermGroupThenSigkill
          else KillAttempt.sigtermGroup)) ∧
    (∀ c, firstSettling evs = some (ChildEvent.close c) →
      (runScript g t evs).kill = none) ∧
    defaultTimeoutMs = 1200000 := by
  have h := runScript_firstSettling g t evs initRunState rfl rfl
  exact ⟨h.2.2, fun c hc => (h.1 c hc).2, rfl⟩

/-- Closed instance of `run_python_script_timeout_kills`: a child that
never closes is killed with `SIGTERM` on the process group and the
promise rejects with the timeout error. -/
theorem run_python_script_timeout_kills_witness :
    (runScript false defaultTimeoutMs [ChildEvent.timeoutFire]).settled =
      some (Settled.rejectedTimeout defaultTimeoutMs) ∧
    (runScript false defaultTimeoutMs [ChildEvent.timeoutFire]).kill =
      some KillAttempt.sigtermGroup := by
  have h := (run_python_script_timeout_kills false defaultTimeoutMs
    [ChildEvent.timeoutFire]).1 rfl
  exact ⟨h.1, by simpa using h.2⟩

/-- C6: when the child closes before the timeout, the promise resolves
exactly when the exit code is 0; a non-zero exit code rejects with an
error carrying the exit code and the collected stderr, and a spawn-level
error also rejects. -/
theorem run_python_script_exit_codes
    (g : Bool) (t : Nat) (evs : List ChildEvent) :
    (∀ c, firstSettling evs = some (ChildEvent.close c) →
      (((runScript g t evs).settled =
          some (Settled.resolvedOk (outBefore evs) (errBefore evs) c)) ↔
        c = 0) ∧
      (c ≠ 0 → (runScript g t evs).settled =
        some (Settled.rejectedExit c (errBefore evs)))) ∧
    (firstSettling evs = some ChildEvent.spawnError →
      (runScript g t evs).settled = some Settled.rejectedSpawnError) := by
  have h := runScript_firstSettling g t evs initRunState rfl rfl
  refine ⟨fun c hc => ?_, fun hc => (h.2.1 hc).1⟩
  have h1 := (h.1 c hc).1
  simp only [show initRunState.stdout = [] from rfl,
    show initRunState.stderr = [] from rfl, List.nil_append] at h1
  have h1 : (runScript g t evs).settled =
      some (if c = 0 then Settled.resolvedOk (outBefore evs) (errBefore evs) c
        else Settled.rejectedExit c (errBefore evs)) := h1
  constructor
  · constructor
    · intro hres
      by_contra hne
      rw [if_neg hne] at h1
      rw [h1] at hres
      exact absurd (Option.some.inj hres) (by simp)
    · intro h0
      subst h0
      simpa using h1
  · intro hne
    rw [if_neg hne] at h1
    exact h1

/-- Closed instance of `run_python_script_exit_codes`: exit code 2 with
stderr output rejects with the code and the stderr. -/
theorem run_python_script_exit_codes_witness :
    (runScript false 5
        [ChildEvent.stderrData "boom".data, ChildEvent.close 2]).settled =
      some (Settled.rejectedExit 2
        (errBefore [ChildEvent.stderrData "boom".data, ChildEvent.close 2])) :=
  ((run_python_script_exit_codes false 5
    [ChildEvent.stderrData "boom".data, ChildEvent.close 2]).1 2 rfl).2
    (by decide)

/-- C8: `GET /api/status` answers `completed` iff
`videa_s_extrahovanymi_info.csv` exists in the server's own directory and
`processing` otherwise, and that checked path differs from the path the
pipeline's completion branch copies `extracted.csv` to
(`public/videa_s_extrahovanymi_info.csv`). -/
theorem api_status_checks_uncopied_path
    (fsExists : List String → Bool) (dir : List String) :
    ((apiStatus fsExists dir).1 = "completed" ↔
      fsExists (statusCsvPath dir) = true) ∧
    ((apiStatus fsExists dir).1 = "processing" ↔
      fsExists (statusCsvPath dir) = false) ∧
    statusCsvPath dir ≠ completionCopyDest dir := by
  refine ⟨?_, ?_, ?_⟩
  · constructor
    · intro h
      by_cases hf : fsExists (statusCsvPath dir) = true
      · exact hf
      · simp [apiStatus, hf] at h
    · intro h
      simp [apiStatus, h]
  · constructor
    · intro h
      by_cases hf : fsExists (statusCsvPath dir) = true
      · simp [apiStatus, hf] at h
      · simpa using hf
    · intro h
      simp [apiStatus, h]
  · intro h
    have := congrArg List.length h
    simp [statusCsvPath, completionCopyDest] at this

/-- Closed instance of `api_status_checks_uncopied_path` on an empty file
system rooted at the server directory `[]`. -/
theorem api_status_checks_uncopied_path_witness :
    ((apiStatus (fun _ => false) []).1 = "completed" ↔ false = true) ∧
    ((apiStatus (fun _ => false) []).1 = "processing" ↔ false = false) ∧
    statusCsvPath [] ≠ completionCopyDest [] :=
  api_status_checks_uncopied_path (fun _ => false) []

/-- C9: `GET /api/progress` always answers HTTP 200; a parseable
`progress.json` is returned verbatim, while a missing or unparseable file
yields the fixed default record
`{current: 0, total: 0, status: 'idle', message: 'Čekání na spuštění',
percentage: 0}`. -/
theorem api_progress_total
    (J : Type) (parse : Str → Option J) (file : Option Str) :
    (apiProgress parse file).1 = 200 ∧
    (∀ s j, file = some s → parse s = some j →
      (apiProgress parse file).2 = Sum.inl j) ∧
    ((file = none ∨ ∃ s, file = some s ∧ parse s = none) →
      (apiProgress parse file).2 = Sum.inr defaultProgress) ∧
    defaultProgress =
      { current := 0, total := 0, status := "idle".data,
        message := "Čekání na spuštění".data, percentage := some 0 } := by
  refine ⟨?_, ?_, ?_, rfl⟩
  · cases file with
    | none => rfl
    | some s =>
      cases h : parse s <;> simp [apiProgress, h]
  · intro s j hs hj
    subst hs
    simp [apiProgress, hj]
  · intro h
    rcases h with h | ⟨s, hs, hp⟩
    · subst h; rfl
    · subst hs
      simp [apiProgress, hp]

/-- Closed instance of `api_progress_total`: an unparseable file yields
the default record. -/
theorem api_progress_total_witness :
    (apiProgress (J := Nat) (fun _ => none) (some "x".data)).2 =
      Sum.inr defaultProgress :=
  (api_progress_total Nat (fun _ => none) (some "x".data)).2.2.1
    (Or.inr ⟨"x".data, rfl, rfl⟩)

/-- Branch equation: the observed count reaches the total. -/
theorem extractionLoopGo_succ_ge {obs : Nat → Int} {total : Int} {m : Str}
    {fuel cr : Nat} (hge : obs (cr + 1) ≥ total) :
    extractionLoopGo obs total m (fuel + 1) cr =
      ([LoopEv.run (cr + 1),
        LoopEv.progressWrite (loopProgressRec m (obs (cr + 1)) total (cr + 1))],
       cr + 1, true) := by
  simp only [extractionLoopGo]
  rw [if_pos hge]

/-- Branch equation: the observed count is zero (and below the total). -/
theorem extractionLoopGo_succ_zero {obs : Nat → Int} {total : Int} {m : Str}
    {fuel cr : Nat} (hge : ¬ obs (cr + 1) ≥ total) (h0 : obs (cr + 1) = 0) :
    extractionLoopGo obs total m (fuel + 1) cr =
      ([LoopEv.run (cr + 1),
        LoopEv.progressWrite (loopProgressRec m (obs (cr + 1)) total (cr + 1))],
       cr + 1, false) := by
  simp only [extractionLoopGo]
  rw [if_neg hge, if_pos h0]

/-- Branch equation: some progress below the total, cooldown, re-invocation. -/
theorem extractionLoopGo_succ_step {obs : Nat → Int} {total : Int} {m : Str}
    {fuel cr : Nat} (hge : ¬ obs (cr + 1) ≥ total) (h0 : ¬ obs (cr + 1) = 0) :
    extractionLoopGo obs total m (fuel + 1) cr =
      (LoopEv.run (cr + 1) ::
        LoopEv.progressWrite (loopProgressRec m (obs (cr + 1)) total (cr + 1)) ::
        LoopEv.cooldown cooldownMs ::
        (extractionLoopGo obs total m fuel (cr + 1)).1,
       (extractionLoopGo obs total m fuel (cr + 1)).2) := by
  simp only [extractionLoopGo]
  rw [if_neg hge, if_neg h0]

theorem countRuns_nil : countRuns [] = 0 := rfl

theorem countRuns_cons_run (k : Nat) (l : List LoopEv) :
    countRuns (LoopEv.run k :: l) = countRuns l + 1 := by
  simp [countRuns, List.countP_cons]

theorem countRuns_cons_write (r : ProgressRec) (l : List LoopEv) :
    countRuns (LoopEv.progressWrite r :: l) = countRuns l := by
  simp [countRuns, List.countP_cons]

theorem countRuns_cons_cool (n : Nat) (l : List LoopEv) :
    countRuns (LoopEv.cooldown n :: l) = countRuns l := by
  simp [countRuns, List.countP_cons]

/-- The loop performs at most `fuel` invocations. -/
theorem extractionLoopGo_countRuns_le (obs : Nat → Int) (total : Int)
    (m : Str) : ∀ fuel cr,
    countRuns (extractionLoopGo obs total m fuel cr).1 ≤ fuel := by
  intro fuel
  induction fuel with
  | zero => intro cr; simp [extractionLoopGo, countRuns]
  | succ fuel ih =>
    intro cr
    by_cases hge : obs (cr + 1) ≥ total
    · rw [extractionLoopGo_succ_ge hge]
      rw [show ([LoopEv.run (cr + 1), LoopEv.progressWrite
        (loopProgressRec m (obs (cr + 1)) total (cr + 1))],
          cr + 1, true).1 = _ from rfl,
        countRuns_cons_run, countRuns_cons_write, countRuns_nil]
      omega
    · by_cases h0 : obs (cr + 1) = 0
      · rw [extractionLoopGo_succ_zero hge h0]
        rw [show ([LoopEv.run (cr + 1), LoopEv.progressWrite
          (loopProgressRec m (obs (cr + 1)) total (cr + 1))],
            cr + 1, false).1 = _ from rfl,
          countRuns_cons_run, countRuns_cons_write, countRuns_nil]
        omega
      · rw [extractionLoopGo_succ_step hge h0]
        have := ih (cr + 1)
        rw [show (LoopEv.run (cr + 1) ::
          LoopEv.progressWrite (loopProgressRec m (obs (cr + 1)) total (cr + 1)) ::
          LoopEv.cooldown cooldownMs ::
          (extractionLoopGo obs total m fuel (cr + 1)).1,
          (extractionLoopGo obs total m fuel (cr + 1)).2).1 = _ from rfl,
          countRuns_cons_run, countRuns_cons_write, countRuns_cons_cool]
        omega

/-- Every trace the loop produces has a 3000 ms cooldown between any two
consecutive invocations. -/
theorem extractionLoopGo_separated (obs : Nat → Int) (total : Int)
    (m : Str) : ∀ fuel cr,
    cooldownSeparated (extractionLoopGo obs total m fuel cr).1 = true := by
  intro fuel
  induction fuel with
  | zero => intro cr; rfl
  | succ fuel ih =>
    intro cr
    by_cases hge : obs (cr + 1) ≥ total
    · rw [extractionLoopGo_succ_ge hge]
      rfl
    · by_cases h0 : obs (cr + 1) = 0
      · rw [extractionLoopGo_succ_zero hge h0]
        rfl
      · rw [extractionLoopGo_succ_step hge h0]
        have := ih (cr + 1)
        simpa [cooldownSeparated, separatedFrom] using this

/-- Any invocation appearing in the trace of `extractionLoopGo fuel cr`
has an index in `(cr, cr + fuel]`. -/
theorem extractionLoopGo_run_mem (obs : Nat → Int) (total : Int)
    (m : Str) : ∀ fuel cr k,
    LoopEv.run k ∈ (extractionLoopGo obs total m fuel cr).1 →
    cr < k ∧ k ≤ cr + fuel := by
  intro fuel
  induction fuel with
  | zero => intro cr k h; simp [extractionLoopGo] at h
  | succ fuel ih =>
    intro cr k h
    by_cases hge : obs (cr + 1) ≥ total
    · rw [extractionLoopGo_succ_ge hge] at h
      simp at h
      omega
    · by_cases h0 : obs (cr + 1) = 0
      · rw [extractionLoopGo_succ_zero hge h0] at h
        simp at h
        omega
      · rw [extractionLoopGo_succ_step hge h0] at h
        simp only [List.mem_cons] at h
        rcases h with h | h | h | h
        · injection h with h; omega
        · exact absurd h (by simp)
        · exact absurd h (by simp)
        · have := ih (cr + 1) k h
          omega

/-- If the count observed after invocation `k` is zero, no invocation
`k + 1` appears in the trace. -/
theorem extractionLoopGo_zero_stops (obs : Nat → Int) (total : Int)
    (m : Str) : ∀ fuel cr k,
    LoopEv.run k ∈ (extractionLoopGo obs total m fuel cr).1 →
    obs k = 0 →
    LoopEv.run (k + 1) ∉ (extractionLoopGo obs total m fuel cr).1 := by
  intro fuel
  induction fuel with
  | zero => intro cr k h; simp [extractionLoopGo] at h
  | succ fuel ih =>
    intro cr k h hz
    by_cases hge : obs (cr + 1) ≥ total
    · rw [extractionLoopGo_succ_ge hge] at h ⊢
      simp at h ⊢
      omega
    · by_cases h0 : obs (cr + 1) = 0
      · rw [extractionLoopGo_succ_zero hge h0] at h ⊢
        simp at h ⊢
        omega
      · rw [extractionLoopGo_succ_step hge h0] at h ⊢
        simp only [List.mem_cons] at h ⊢
        rcases h with h | h | h | h
        · injection h with h
          subst h
          exact absurd hz h0
        · exact absurd h (by simp)
        · exact absurd h (by simp)
        · have hk := extractionLoopGo_run_mem obs total m fuel (cr + 1) k h
          push_neg
          refine ⟨?_, by simp, by simp, ?_⟩
          · intro he
            injection he with he
            omega
          · exact ih (cr + 1) k h hz

/-- The loop's final `allVideosProcessed` flag is true exactly when the
count observed after the final invocation reaches the total (provided a
zero fuel budget is only reached while the count is below the total). -/
theorem extractionLoopGo_completed_iff (obs : Nat → Int) (total : Int)
    (m : Str) : ∀ fuel cr, (fuel = 0 → obs cr < total) →
    ((extractionLoopGo obs total m fuel cr).2.2 = true ↔
      obs (extractionLoopGo obs total m fuel cr).2.1 ≥ total) := by
  intro fuel
  induction fuel with
  | zero =>
    intro cr h
    simp only [extractionLoopGo]
    constructor
    · intro hb; exact absurd hb (by simp)
    · intro hge; exact absurd hge (by simpa using h rfl)
  | succ fuel ih =>
    intro cr _
    by_cases hge : obs (cr + 1) ≥ total
    · rw [extractionLoopGo_succ_ge hge]
      simpa using hge
    · by_cases h0 : obs (cr + 1) = 0
      · rw [extractionLoopGo_succ_zero hge h0]
        constructor
        · intro hb; exact absurd hb (by simp)
        · intro hc; exact absurd hc hge
      · rw [extractionLoopGo_succ_step hge h0]
        exact ih (cr + 1) (fun _ => lt_of_not_ge hge)

/-- Every progress record in the trace is the between-runs record of some
invocation `k ∈ (cr, cr + fuel]`. -/
theorem extractionLoopGo_write_mem (obs : Nat → Int) (total : Int)
    (m : Str) : ∀ fuel cr r,
    LoopEv.progressWrite r ∈ (extractionLoopGo obs total m fuel cr).1 →
    ∃ k, cr < k ∧ k ≤ cr + fuel ∧ r = loopProgressRec m (obs k) total k := by
  intro fuel
  induction fuel with
  | zero => intro cr r h; simp [extractionLoopGo] at h
  | succ fuel ih =>
    intro cr r h
    by_cases hge : obs (cr + 1) ≥ total
    · rw [extractionLoopGo_succ_ge hge] at h
      simp at h
      exact ⟨cr + 1, by omega, by omega, h⟩
    · by_cases h0 : obs (cr + 1) = 0
      · rw [extractionLoopGo_succ_zero hge h0] at h
        simp at h
        exact ⟨cr + 1, by omega, by omega, h⟩
      · rw [extractionLoopGo_succ_step hge h0] at h
        simp only [List.mem_cons] at h
        rcases h with h | h | h | h
        · exact absurd h (by simp)
        · injection h with h
          exact ⟨cr + 1, by omega, by omega, h⟩
        · exact absurd h (by simp)
        · obtain ⟨k, hk1, hk2, hk3⟩ := ih (cr + 1) r h
          exact ⟨k, by omega, by omega, hk3⟩

/-- C4: every orchestration loop (upload and restart, over any file
contents) terminates after at most `maxRuns = 10` subprocess invocations
— even if unprocessed rows remain — and between any two consecutive
invocations it waits a `cooldownMs = 3000` millisecond cooldown. -/
theorem extraction_loop_bounded_and_cooled
    (ext : Nat → Option Str) (clean : Str) (m : Str) :
    countRuns (extractionLoopFiles ext clean m).1 ≤ maxRuns ∧
    cooldownSeparated (extractionLoopFiles ext clean m).1 = true ∧
    maxRuns = 10 ∧ cooldownMs = 3000 :=
  ⟨extractionLoopGo_countRuns_le _ _ _ maxRuns 0,
   extractionLoopGo_separated _ _ _ maxRuns 0, rfl, rfl⟩

/-- Closed instance of `extraction_loop_bounded_and_cooled`, on the
restart loop over the stuck extraction. -/
theorem extraction_loop_bounded_and_cooled_witness :
    countRuns (extractionLoopFiles extStuck cleanThree restartMsg).1 ≤ maxRuns ∧
    cooldownSeparated (extractionLoopFiles extStuck cleanThree restartMsg).1 = true ∧
    maxRuns = 10 ∧ cooldownMs = 3000 :=
  extraction_loop_bounded_and_cooled extStuck cleanThree restartMsg

/-- Counterexample to C1: with `extracted.csv` stuck at one processed row
out of three, invocation 2 processes zero new items, yet the upload loop
still launches invocation 3 — the code's stop test is
`processedVideos === 0` on the cumulative count, not on the progress of
the last invocation. -/
theorem extraction_loop_stall_counterexample :
    LoopEv.run 2 ∈ (extractionLoopFiles extStuck cleanThree uploadMsg).1 ∧
    processedCount (extStuck 2) = processedCount (extStuck 1) ∧
    LoopEv.run 3 ∈ (extractionLoopFiles extStuck cleanThree uploadMsg).1 := by
  decide

/-- C1 amended: the loop stops re-invoking when the cumulative processed
count read after an invocation is zero; an invocation with zero progress
but a non-zero cumulative count does not stop it. -/
theorem extraction_loop_stops_on_zero_cumulative
    (ext : Nat → Option Str) (clean : Str) (m : Str) (k : Nat)
    (hmem : LoopEv.run k ∈ (extractionLoopFiles ext clean m).1)
    (hz : processedCount (ext k) = 0) :
    LoopEv.run (k + 1) ∉ (extractionLoopFiles ext clean m).1 :=
  extractionLoopGo_zero_stops _ _ _ maxRuns 0 k hmem hz

/-- Closed instance of `extraction_loop_stops_on_zero_cumulative`: when no
`extracted.csv` ever appears, the loop stops after invocation 1. -/
theorem extraction_loop_stops_on_zero_cumulative_witness :
    LoopEv.run 2 ∉ (extractionLoopFiles (fun _ => none) cleanThree uploadMsg).1 :=
  extraction_loop_stops_on_zero_cumulative (fun _ => none) cleanThree
    uploadMsg 1 (by decide) rfl

/-- C2: the upload endpoint's final `metadata.status` is `completed`
exactly when the processed-row count of `extracted.csv` re-read after the
loop (non-empty lines minus the header) reaches the row count of
`clean.csv` (non-empty lines minus the header), and `error` otherwise. -/
theorem upload_final_status_iff (ext : Nat → Option Str) (clean : Str) :
    (uploadFinalStatus ext clean = "completed" ↔
      processedCount (ext (extractionLoopFiles ext clean uploadMsg).2.1) ≥
        totalCount clean) ∧
    (uploadFinalStatus ext clean = "error" ↔
      ¬ processedCount (ext (extractionLoopFiles ext clean uploadMsg).2.1) ≥
        totalCount clean) := by
  have hflag : ((extractionLoopFiles ext clean uploadMsg).2.2 = true) ↔
      processedCount (ext (extractionLoopFiles ext clean uploadMsg).2.1) ≥
        totalCount clean :=
    extractionLoopGo_completed_iff
      (fun k => processedCount (ext k)) (totalCount clean) uploadMsg maxRuns 0
      (fun hz => absurd hz (by decide))
  by_cases hb : (extractionLoopFiles ext clean uploadMsg).2.2 = true
  · have hs : uploadFinalStatus ext clean = "completed" := by
      unfold uploadFinalStatus
      rw [if_pos hb]
    constructor
    · exact ⟨fun _ => hflag.mp hb, fun _ => hs⟩
    · constructor
      · intro he
        exact absurd (hs.symm.trans he) (by decide)
      · intro hn
        exact absurd (hflag.mp hb) hn
  · have hs : uploadFinalStatus ext clean = "error" := by
      unfold uploadFinalStatus
      rw [if_neg hb]
    have hnot : ¬ processedCount
        (ext (extractionLoopFiles ext clean uploadMsg).2.1) ≥
          totalCount clean := fun hc => hb (hflag.mpr hc)
    constructor
    · constructor
      · intro he
        exact absurd (hs.symm.trans he) (by decide)
      · intro hc
        exact absurd hc hnot
    · exact ⟨fun _ => hnot, fun _ => hs⟩

/-- Closed instance of `upload_final_status_iff`: with no `extracted.csv`
ever produced, the final status is `error`. -/
theorem upload_final_status_iff_witness :
    (uploadFinalStatus (fun _ => none) cleanThree = "completed" ↔
      processedCount none ≥ totalCount cleanThree) ∧
    (uploadFinalStatus (fun _ => none) cleanThree = "error" ↔
      ¬ processedCount none ≥ totalCount cleanThree) :=
  upload_final_status_iff (fun _ => none) cleanThree

/-- Counterexample to C3: the record the loop writes to `progress.json`
between invocations carries no `percentage` field at all (the loop write
at server.js lines 256-261 serializes only `current`, `total`, `status`
and `message`). -/
theorem progress_write_no_percentage_counterexample :
    LoopEv.progressWrite (loopProgressRec uploadMsg 1 3 1) ∈
      (extractionLoopFiles extStuck cleanThree uploadMsg).1 ∧
    (loopProgressRec uploadMsg 1 3 1).percentage = none := by
  decide

/-- C3 amended: every progress record written by the orchestration loop
while items are being processed carries `current` (the cumulative
processed count), `total`, status `processing` and a message — and no
`percentage` field. -/
theorem progress_writes_shape (ext : Nat → Option Str) (clean : Str)
    (m : Str) (r : ProgressRec)
    (hmem : LoopEv.progressWrite r ∈ (extractionLoopFiles ext clean m).1) :
    r.percentage = none ∧ r.status = "processing".data ∧
    r.total = totalCount clean ∧
    ∃ k, 1 ≤ k ∧ k ≤ maxRuns ∧ r.current = processedCount (ext k) := by
  obtain ⟨k, hk1, hk2, hk3⟩ := extractionLoopGo_write_mem
    (fun k => processedCount (ext k)) (totalCount clean) m maxRuns 0 r hmem
  subst hk3
  exact ⟨rfl, rfl, rfl, k, by omega, by omega, rfl⟩

/-- Closed instance of `progress_writes_shape` at the stuck-extraction
trace. -/
theorem progress_writes_shape_witness :
    (loopProgressRec uploadMsg 1 3 2).percentage = none ∧
    (loopProgressRec uploadMsg 1 3 2).status = "processing".data ∧
    (loopProgressRec uploadMsg 1 3 2).total = totalCount cleanThree ∧
    ∃ k, 1 ≤ k ∧ k ≤ maxRuns ∧
      (loopProgressRec uploadMsg 1 3 2).current = processedCount (extStuck k) :=
  progress_writes_shape extStuck cleanThree uploadMsg
    (loopProgressRec uploadMsg 1 3 2) (by decide)

theorem getD_mem_of_lt {α} : ∀ {l : List α} {d : α} {i : Nat},
    i < l.length → l.getD i d ∈ l := by
  intro l
  induction l with
  | nil => intro d i h; simp at h
  | cons a l ih =>
    intro d i h
    cases i with
    | zero => exact List.mem_cons_self a l
    | succ i =>
      exact List.mem_cons_of_mem a (ih (by simpa using Nat.lt_of_succ_lt_succ h))

theorem headD_cons_tail {α} {l : List α} (h : l ≠ []) (d : α) :
    l.headD d :: l.tail = l := by
  cases l with
  | nil => exact absurd rfl h
  | cons a l => rfl

/-- `join(sep)` undoes `split(sep)`. -/
theorem jsJoin_jsSplit (c : Char) (s : Str) : jsJoin c (jsSplit c s) = s :=
  List.intercalate_splitOn s c

/-- The scan finds no updatable line exactly when no non-blank line
matches the title. -/
theorem updateLoop_none_iff (tIdx sIdx : Nat) (vt ns : Str) :
    ∀ tail : List Str,
    (updateLoop tIdx sIdx vt ns tail = none ↔
      ∀ l ∈ tail, jsTrimTruthy l = true →
        rowMatchesTitle tIdx vt (jsSplit ';' l) = false) := by
  intro tail
  induction tail with
  | nil => simp [updateLoop]
  | cons line rest ih =>
    by_cases hc : (jsTrimTruthy line &&
        rowMatchesTitle tIdx vt (jsSplit ';' line)) = true
    · simp only [updateLoop, if_pos hc]
      obtain ⟨h1, h2⟩ := Bool.and_eq_true_iff.mp hc
      constructor
      · intro h; exact absurd h (by simp)
      · intro hall
        have := hall line (List.mem_cons_self line rest) h1
        rw [this] at h2
        exact absurd h2 (by simp)
    · have hline : jsTrimTruthy line = true →
          rowMatchesTitle tIdx vt (jsSplit ';' line) = false := by
        intro h1
        cases hb : rowMatchesTitle tIdx vt (jsSplit ';' line)
        · rfl
        · exact absurd (by simp [h1, hb]) hc
      simp only [updateLoop, if_neg hc]
      rw [Option.map_eq_none', ih, List.forall_mem_cons]
      exact ⟨fun h => ⟨hline, h⟩, fun h => h.2⟩

/-- When the scan updates, it rewrites exactly the first non-blank
matching line, by assigning the source field of its split. -/
theorem updateLoop_some_spec (tIdx sIdx : Nat) (vt ns : Str) :
    ∀ (tail : List Str) (out : List Str),
    updateLoop tIdx sIdx vt ns tail = some out →
    ∃ i, i < tail.length ∧
      jsTrimTruthy (tail.getD i []) = true ∧
      rowMatchesTitle tIdx vt (jsSplit ';' (tail.getD i [])) = true ∧
      (∀ j, j < i → jsTrimTruthy (tail.getD j []) = true →
        rowMatchesTitle tIdx vt (jsSplit ';' (tail.getD j [])) = false) ∧
      out = tail.set i
        (jsJoin ';' (jsArraySet (jsSplit ';' (tail.getD i [])) sIdx ns)) := by
  intro tail
  induction tail with
  | nil => intro out h; simp [updateLoop] at h
  | cons line rest ih =>
    intro out h
    by_cases hc : (jsTrimTruthy line &&
        rowMatchesTitle tIdx vt (jsSplit ';' line)) = true
    · simp only [updateLoop, if_pos hc, Option.some.injEq] at h
      obtain ⟨h1, h2⟩ := Bool.and_eq_true_iff.mp hc
      refine ⟨0, by simp, h1, h2, by omega, ?_⟩
      exact h.symm
    · simp only [updateLoop, if_neg hc, Option.map_eq_some'] at h
      obtain ⟨out', hrest, hout⟩ := h
      obtain ⟨i, hi, htrim, hmatch, hprior, hset⟩ := ih out' hrest
      have hline : jsTrimTruthy line = true →
          rowMatchesTitle tIdx vt (jsSplit ';' line) = false := by
        intro h1
        cases hb : rowMatchesTitle tIdx vt (jsSplit ';' line)
        · rfl
        · exact absurd (by simp [h1, hb]) hc
      refine ⟨i + 1, by simpa using Nat.succ_lt_succ hi, htrim, hmatch, ?_, ?_⟩
      · intro j hj
        cases j with
        | zero => exact hline
        | succ j => exact hprior j (by omega)
      · rw [← hout, hset]
        rfl

/-- C7: on a well-formed `extracted.csv` (every non-blank data line has
as many fields as the header, and the header holds a title column and a
source column), `POST /api/update-source` either finds no matching line —
then it answers 404 and the file is not written — or produces a file that
is the original with exactly the first non-blank matching data line
replaced, that line being its own field list with only the source field
overwritten; the header line and all other lines are reassembled
verbatim. -/
theorem update_source_frame (csv vt ns : Str) (tIdx sIdx : Nat)
    (ht : jsFindIndex titleHeaderPred
      (jsSplit ';' ((jsSplit '\n' csv).headD [])) = some tIdx)
    (hsrc : jsFindIndex sourceHeaderPred
      (jsSplit ';' ((jsSplit '\n' csv).headD [])) = some sIdx)
    (hwf : ∀ l ∈ (jsSplit '\n' csv).tail, jsTrimTruthy l = true →
      (jsSplit ';' l).length =
        (jsSplit ';' ((jsSplit '\n' csv).headD [])).length) :
    csv = jsJoin '\n'
      ((jsSplit '\n' csv).headD [] :: (jsSplit '\n' csv).tail) ∧
    (updateSource csv vt ns = none ↔
      ∀ l ∈ (jsSplit '\n' csv).tail, jsTrimTruthy l = true →
        rowMatchesTitle tIdx vt (jsSplit ';' l) = false) ∧
    (∀ out, updateSource csv vt ns = some out →
      ∃ i, i < (jsSplit '\n' csv).tail.length ∧
        jsTrimTruthy ((jsSplit '\n' csv).tail.getD i []) = true ∧
        rowMatchesTitle tIdx vt
          (jsSplit ';' ((jsSplit '\n' csv).tail.getD i [])) = true ∧
        (∀ j, j < i → jsTrimTruthy ((jsSplit '\n' csv).tail.getD j []) = true →
          rowMatchesTitle tIdx vt
            (jsSplit ';' ((jsSplit '\n' csv).tail.getD j [])) = false) ∧
        sIdx < (jsSplit ';' ((jsSplit '\n' csv).tail.getD i [])).length ∧
        out = jsJoin '\n' ((jsSplit '\n' csv).headD [] ::
          (jsSplit '\n' csv).tail.set i
            (jsJoin ';'
              ((jsSplit ';' ((jsSplit '\n' csv).tail.getD i [])).set sIdx ns)))) := by
  have hne : jsSplit '\n' csv ≠ [] := List.splitOnP_ne_nil _ _
  have hcore : updateSource csv vt ns =
      (updateLoop tIdx sIdx vt ns (jsSplit '\n' csv).tail).map
        (fun tl => jsJoin '\n' ((jsSplit '\n' csv).headD [] :: tl)) := by
    simp only [updateSource]
    rw [ht, hsrc]
  refine ⟨?_, ?_, ?_⟩
  · rw [headD_cons_tail hne, jsJoin_jsSplit]
  · rw [hcore, Option.map_eq_none']
    exact updateLoop_none_iff tIdx sIdx vt ns _
  · intro out hsome
    rw [hcore, Option.map_eq_some'] at hsome
    obtain ⟨tl, htl, hout⟩ := hsome
    obtain ⟨i, hi, htrim, hmatch, hprior, hset⟩ :=
      updateLoop_some_spec tIdx sIdx vt ns _ tl htl
    have hlen : sIdx < (jsSplit ';' ((jsSplit '\n' csv).tail.getD i [])).length := by
      have hmem : (jsSplit '\n' csv).tail.getD i [] ∈ (jsSplit '\n' csv).tail :=
        getD_mem_of_lt hi
      have := hwf _ hmem htrim
      rw [this]
      exact jsFindIndex_lt_length hsrc
    refine ⟨i, hi, htrim, hmatch, hprior, hlen, ?_⟩
    rw [← hout, hset, jsArraySet_eq_set hlen]

/-- Closed instance of `update_source_frame`: a file whose single data
line does not contain the requested title is left unwritten (404). -/
theorem update_source_frame_witness :
    updateSource "Název;Extrahované info".data "zzz".data "n".data = none :=
  (update_source_frame "Název;Extrahované info".data "zzz".data "n".data
    0 1 (by decide) (by decide) (by decide)).2.1.mpr (by decide)

theorem objSet_append (o : Obj) (k v : Str) (h : ∀ kv ∈ o, kv.1 ≠ k) :
    objSet o k v = o ++ [(k, v)] := by
  have hfalse : o.any (fun kv => decide (kv.1 = k)) = false := by
    rw [List.any_eq_false]
    intro kv hkv
    simpa using h kv hkv
  simp [objSet, hfalse]

theorem objGet_cons_self (o : Obj) (k v : Str) :
    objGet ((k, v) :: o) k = v := by
  unfold objGet
  rw [List.find?_cons_of_pos _ (by simp)]

theorem objGet_cons_of_ne (o : Obj) (p : Str × Str) (k : Str) (h : p.1 ≠ k) :
    objGet (p :: o) k = objGet o k := by
  unfold objGet
  rw [List.find?_cons_of_neg _ (by simpa using h)]

/-- A `forEach` over headers none of which collide with the accumulated
object appends one binding per header. -/
theorem parseRowGo_eq (values : List Str) :
    ∀ (hs : List Str) (i : Nat) (o : Obj),
    (∀ h ∈ hs, ∀ kv ∈ o, kv.1 ≠ h) → hs.Nodup →
    parseRowGo values i o hs = o ++ rowOf values i hs := by
  intro hs
  induction hs with
  | nil => intro i o _ _; simp [parseRowGo, rowOf]
  | cons h hs ih =>
    intro i o hfresh hnd
    rw [List.nodup_cons] at hnd
    simp only [parseRowGo, rowOf]
    rw [objSet_append o h _ (hfresh h (List.mem_cons_self h hs))]
    rw [ih (i + 1) (o ++ [(h, jsIndexOr values i)]) ?fresh hnd.2]
    · simp
    case fresh =>
      intro h' hh' kv hkv
      rcases List.mem_append.mp hkv with hkv | hkv
      · exact hfresh h' (List.mem_cons_of_mem h hh') kv hkv
      · simp only [List.mem_singleton] at hkv
        rw [hkv]
        intro he
        have hhe : h = h' := he
        subst hhe
        exact hnd.1 hh'

/-- With pairwise-distinct headers, `parseRow` is the straight zip of
headers with `values[index] || ''`. -/
theorem parseRow_eq (headers values : List Str) (hnd : headers.Nodup) :
    parseRow headers values = rowOf values 0 headers := by
  unfold parseRow
  rw [parseRowGo_eq values headers 0 [] (by intro h _ kv hkv; simp at hkv) hnd]
  simp

theorem mapFst_rowOf (values : List Str) :
    ∀ (i : Nat) (hs : List Str), (rowOf values i hs).map Prod.fst = hs := by
  intro i hs
  induction hs generalizing i with
  | nil => rfl
  | cons h hs ih =>
    simp only [rowOf, List.map_cons]
    rw [ih (i + 1)]

/-- When no key is integer-like, `Object.keys` is pure insertion order. -/
theorem objKeys_eq_mapFst (o : Obj)
    (h : ∀ k ∈ o.map Prod.fst, isArrayIndex k = false) :
    objKeys o = o.map Prod.fst := by
  unfold objKeys
  have h1 : (o.map Prod.fst).filter isArrayIndex = [] := by
    rw [List.filter_eq_nil_iff]
    intro a ha
    simp [h a ha]
  have h2 : (o.map Prod.fst).filter (fun k => !isArrayIndex k) = o.map Prod.fst := by
    rw [List.filter_eq_self]
    intro a ha
    simp [h a ha]
  rw [h1, h2]
  rfl

theorem objGet_rowOf (values : List Str) :
    ∀ (hs : List Str), hs.Nodup → ∀ (i j : Nat), j < hs.length →
    objGet (rowOf values i hs) (hs.getD j []) = jsIndexOr values (i + j) := by
  intro hs
  induction hs with
  | nil => intro _ i j hj; simp at hj
  | cons h hs ih =>
    intro hnd i j hj
    rw [List.nodup_cons] at hnd
    cases j with
    | zero =>
      rw [List.getD_cons_zero]
      simp only [rowOf]
      rw [objGet_cons_self]
      rw [Nat.add_zero]
    | succ j =>
      have hj' : j < hs.length := by simpa using Nat.lt_of_succ_lt_succ hj
      have hmem : hs.getD j [] ∈ hs := getD_mem_of_lt hj'
      have hne : h ≠ hs.getD j [] := fun he => hnd.1 (he ▸ hmem)
      rw [List.getD_cons_succ]
      simp only [rowOf]
      rw [objGet_cons_of_ne _ _ _ hne]
      rw [ih hnd.2 (i + 1) j hj']
      rw [show i + 1 + j = i + (j + 1) from by omega]

/-- Reading every header back out of the record returns the original
field list. -/
theorem map_objGet_rowOf (headers values : List Str) (hnd : headers.Nodup)
    (hlen : values.length = headers.length) :
    headers.map (objGet (rowOf values 0 headers)) = values := by
  apply List.ext_getElem (by simp [hlen])
  intro j h1 h2
  rw [List.getElem_map]
  have hj : j < headers.length := by simpa using h1
  have hg := objGet_rowOf values headers hnd 0 j hj
  rw [List.getD_eq_getElem headers [] hj] at hg
  rw [hg]
  unfold jsIndexOr
  rw [Nat.zero_add, List.getD_eq_getElem values [] h2]

/-- C10 amended: on a semicolon CSV whose header fields are pairwise
distinct and none of which is an integer-like JavaScript property key (a
canonical array index such as `0` or `42`, which `Object.keys` would
enumerate first), whose non-blank data lines all have as many fields as
the header, and which has at least one non-blank data line, the
DatasetEditor's serialization of its parse reproduces the header line and
every non-blank data line exactly, in order, with blank lines dropped. -/
theorem dataset_editor_roundtrip (csv : Str)
    (hnd : (jsSplit ';' ((jsSplit '\n' csv).headD [])).Nodup)
    (hidx : ∀ h ∈ jsSplit ';' ((jsSplit '\n' csv).headD []),
      isArrayIndex h = false)
    (hwf : ∀ l ∈ (jsSplit '\n' csv).tail, jsTrimTruthy l = true →
      (jsSplit ';' l).length =
        (jsSplit ';' ((jsSplit '\n' csv).headD [])).length)
    (hne : (jsSplit '\n' csv).tail.filter jsTrimTruthy ≠ []) :
    serializeOfParse csv =
      some (jsJoin '\n' ((jsSplit '\n' csv).headD [] ::
        (jsSplit '\n' csv).tail.filter jsTrimTruthy)) := by
  have hrow : ∀ l ∈ (jsSplit '\n' csv).tail.filter jsTrimTruthy,
      jsJoin ';' ((jsSplit ';' ((jsSplit '\n' csv).headD [])).map
        (objGet (parseRow (jsSplit ';' ((jsSplit '\n' csv).headD []))
          (jsSplit ';' l)))) = l := by
    intro l hl
    obtain ⟨hl1, hl2⟩ := List.mem_filter.mp hl
    have hlen := hwf l hl1 hl2
    rw [parseRow_eq _ _ hnd, map_objGet_rowOf _ _ hnd hlen, jsJoin_jsSplit]
  cases hrows : (jsSplit '\n' csv).tail.filter jsTrimTruthy with
  | nil => exact absurd hrows hne
  | cons r0 rs =>
    have hparse : parseCsv csv = (r0 :: rs).map
        (fun l => parseRow (jsSplit ';' ((jsSplit '\n' csv).headD []))
          (jsSplit ';' l)) := by
      simp only [parseCsv]
      rw [hrows]
    have hk0 : objKeys (parseRow (jsSplit ';' ((jsSplit '\n' csv).headD []))
        (jsSplit ';' r0)) = jsSplit ';' ((jsSplit '\n' csv).headD []) := by
      rw [parseRow_eq _ _ hnd]
      rw [objKeys_eq_mapFst _ (by rw [mapFst_rowOf]; exact hidx)]
      exact mapFst_rowOf _ _ _
    simp only [serializeOfParse]
    rw [hparse]
    simp only [List.map_cons, serializeVideos]
    rw [hk0]
    have hr0 : jsJoin ';' (List.map
        (objGet (parseRow (jsSplit ';' ((jsSplit '\n' csv).headD []))
          (jsSplit ';' r0)))
        (jsSplit ';' ((jsSplit '\n' csv).headD []))) = r0 :=
      hrow r0 (by rw [hrows]; exact List.mem_cons_self r0 rs)
    rw [hr0]
    rw [List.map_map]
    have hid : ∀ l ∈ rs,
        ((fun v => jsJoin ';'
            (List.map (objGet v) (jsSplit ';' ((jsSplit '\n' csv).headD [])))) ∘
          (fun l => parseRow (jsSplit ';' ((jsSplit '\n' csv).headD []))
            (jsSplit ';' l))) l = id l := by
      intro l hl
      simp only [Function.comp, id]
      exact hrow l (by rw [hrows]; exact List.mem_cons_of_mem r0 hl)
    rw [List.map_congr_left hid, List.map_id, jsJoin_jsSplit]

/-- Closed instance of `dataset_editor_roundtrip` on a CSV with distinct
non-numeric headers, two data lines and one blank line. -/
theorem dataset_editor_roundtrip_witness :
    serializeOfParse "a;b\nx;y\n\nu;v".data =
      some (jsJoin '\n' ((jsSplit '\n' ("a;b\nx;y\n\nu;v".data)).headD [] ::
        (jsSplit '\n' ("a;b\nx;y\n\nu;v".data)).tail.filter jsTrimTruthy)) :=
  dataset_editor_roundtrip "a;b\nx;y\n\nu;v".data (by decide) (by decide)
    (by decide) (by decide)

/-- Counterexample to C10 as stated, at two concrete inputs that both
satisfy the claim's hypotheses (first line is the header, every data line
has exactly as many fields as the header, no field holds a semicolon or
newline): `a;a\nx;y` round-trips to `a\ny`, because duplicate header
names collapse into a single JavaScript object key; and `b;0\nx;y` —
distinct headers — round-trips to `0;b\ny;x`, because `Object.keys`
enumerates the integer-like key `0` before `b`. -/
theorem dataset_editor_roundtrip_counterexample :
    (∀ l ∈ (jsSplit '\n' ("a;a\nx;y".data)).tail, jsTrimTruthy l = true →
      (jsSplit ';' l).length =
        (jsSplit ';' ((jsSplit '\n' ("a;a\nx;y".data)).headD [])).length) ∧
    serializeOfParse "a;a\nx;y".data = some "a\ny".data ∧
    "a\ny".data ≠ "a;a\nx;y".data ∧
    (jsSplit ';' ((jsSplit '\n' ("b;0\nx;y".data)).headD [])).Nodup ∧
    (∀ l ∈ (jsSplit '\n' ("b;0\nx;y".data)).tail, jsTrimTruthy l = true →
      (jsSplit ';' l).length =
        (jsSplit ';' ((jsSplit '\n' ("b;0\nx;y".data)).headD [])).length) ∧
    serializeOfParse "b;0\nx;y".data = some "0;b\ny;x".data ∧
    "0;b\ny;x".data ≠ "b;0\nx;y".data := by
  decide

end Analytics
